import Mathlib

/-!
Verification development for the QtDataSync repository.

Part 1 models the server-side `DatabaseController`
(QtDataSyncServer/databasecontroller.cpp): the logical schema
(`users`, `devices`, `data`, `states`), the three operations
`createIdentity`, `identify` and `save`, and the transactional
rollback behaviour.  SQL query failures are modelled by a
`QueryOracle` telling which query steps succeed; a rolled-back
transaction returns the pre-transaction database.

Part 2 models the client-side `RemoteConnector`
(src/datasync/remoteconnector.cpp and the predecessor
src/datasync/wsremoteconnector.cpp): retry back-off, keepalive
pings, the error-trigger helper, the `Welcome` key-update handler,
and the `Proof`/`loginReply` account-import handlers.  Cryptographic
primitives are abstracted as function-valued parameters
(`CryptoPrims`); pieces of the crypto controller that are not part
of the sources are modelled from the specification and marked so.
-/

namespace QtDataSyncServer

/-- A row of the `devices` table: serial primary key `id`,
`deviceid` and `userid` uuids (uuids are modelled as `Nat`). -/
structure DeviceRow where
  id : Nat
  deviceid : Nat
  userid : Nat
deriving DecidableEq, Repr

/-- A row of the `data` table: serial primary key `index`, the owning
user, the `(type, key)` pair and the JSON payload (opaque string). -/
structure DataRow where
  index : Nat
  userid : Nat
  type : String
  key : String
  data : String
deriving DecidableEq, Repr

/-- The logical database state.  `states` rows are
`(dataindex, device-row-id)` pairs; `nextDeviceId` and
`nextDataIndex` model the serial sequences. -/
structure DB where
  users : List Nat
  devices : List DeviceRow
  dataRows : List DataRow
  states : List (Nat × Nat)
  nextDeviceId : Nat
  nextDataIndex : Nat
deriving DecidableEq, Repr

/-- Which SQL steps of an operation succeed.  `txBegin` is
`db.transaction()`, `q1`/`q2`/`q3` are the successive queries in
source order, and `commit` is `db.commit()`. -/
structure QueryOracle where
  txBegin : Bool
  q1 : Bool
  q2 : Bool
  q3 : Bool
  commit : Bool
deriving DecidableEq, Repr

/-- An oracle under which every SQL step succeeds. -/
def QueryOracle.ok : QueryOracle := ⟨true, true, true, true, true⟩

/-- `SELECT index FROM data WHERE userid = ? AND type = ? AND key = ?`
(the `getIdQuery` of `DatabaseController::save`). -/
def DB.findDataIndex (db : DB) (uid : Nat) (t k : String) : Option Nat :=
  (db.dataRows.find? (fun r => r.userid == uid && r.type == t && r.key == k)).map DataRow.index

/-- Row-by-row semantics of
`INSERT INTO states (dataindex, deviceid) SELECT ?, id FROM devices
WHERE userid = ? AND deviceid != ? ON CONFLICT DO NOTHING`:
walk the device table, and for every device of user `uid` other than
the writer `did` add `(idx, d.id)` unless that primary key is
already present. -/
def insertStatesAux (idx uid did : Nat) : List DeviceRow → List (Nat × Nat) → List (Nat × Nat)
  | [], st => st
  | d :: rest, st =>
    if d.userid = uid ∧ d.deviceid ≠ did ∧ (idx, d.id) ∉ st then
      insertStatesAux idx uid did rest (st ++ [(idx, d.id)])
    else
      insertStatesAux idx uid did rest st

/-- `DatabaseController::createIdentity`: inside one transaction,
insert a fresh user identity (`newIdentity` models
`QUuid::createUuid()`), then insert the device row; roll back and
return a null uuid (`none`) if any step fails. -/
def createIdentity (o : QueryOracle) (db : DB) (newIdentity deviceId : Nat) : DB × Option Nat :=
  if o.txBegin = false then (db, none)
  else if o.q1 = false then (db, none)
  else
    let db1 : DB := { db with users := db.users ++ [newIdentity] }
    if o.q2 = false then (db, none)
    else
      let db2 : DB := { db1 with
        devices := db1.devices ++ [{ id := db1.nextDeviceId, deviceid := deviceId, userid := newIdentity }],
        nextDeviceId := db1.nextDeviceId + 1 }
      if o.commit = true then (db2, some newIdentity) else (db, none)

/-- `DatabaseController::identify`: check
`SELECT EXISTS(SELECT identity FROM users WHERE identity = ?)`; when
the user exists, `INSERT INTO devices (deviceid, userid) VALUES(?, ?)
ON CONFLICT DO NOTHING` and return `true`, otherwise return `false`
without touching the database. -/
def identify (o : QueryOracle) (db : DB) (identity deviceId : Nat) : DB × Bool :=
  if o.q1 = false then (db, false)
  else if identity ∈ db.users then
    if o.q2 = false then (db, false)
    else if ∃ d ∈ db.devices, d.deviceid = deviceId ∧ d.userid = identity then
      (db, true)
    else
      ({ db with
          devices := db.devices ++ [{ id := db.nextDeviceId, deviceid := deviceId, userid := identity }],
          nextDeviceId := db.nextDeviceId + 1 }, true)
  else (db, false)

/-- The tail of `DatabaseController::save` after the data row was
written: the `states` insert-select (`q3`) and the commit.  `db0` is
the pre-transaction database restored on rollback, `db1` the
database after the data write, `idx` the index of the saved row. -/
def saveStates (o : QueryOracle) (db0 db1 : DB) (idx uid did : Nat) : DB × Bool :=
  if o.q3 = false then (db0, false)
  else
    let db2 : DB := { db1 with states := insertStatesAux idx uid did db1.devices db1.states }
    if o.commit = true then (db2, true) else (db0, false)

/-- `DatabaseController::save`: inside one transaction, look the
`(userid, type, key)` data row up; update it if it exists, insert it
with a fresh serial index otherwise; then run the `states`
insert-select and commit.  Any failing step rolls the whole
transaction back and reports `false`. -/
def save (o : QueryOracle) (db : DB) (uid did : Nat) (t k j : String) : DB × Bool :=
  if o.txBegin = false then (db, false)
  else if o.q1 = false then (db, false)
  else
    match db.findDataIndex uid t k with
    | some idx =>
      if o.q2 = false then (db, false)
      else saveStates o db
        { db with dataRows := db.dataRows.map (fun r => if r.index == idx then { r with data := j } else r) }
        idx uid did
    | none =>
      if o.q2 = false then (db, false)
      else saveStates o db
        { db with
            dataRows := db.dataRows ++ [{ index := db.nextDataIndex, userid := uid, type := t, key := k, data := j }],
            nextDataIndex := db.nextDataIndex + 1 }
        db.nextDataIndex uid did

end QtDataSyncServer

namespace QtDataSync

/-! ### Retry back-off (`RemoteConnector::Timeouts`, `retry`,
`onEntryIdleState`) -/

/-- The fixed back-off schedule, in seconds: 5 s, 10 s, 30 s, 1 min,
5 min (`RemoteConnector::Timeouts`). -/
def Timeouts : List Nat := [5, 10, 30, 60, 300]

/-- `RemoteConnector::retry`: pick the delay for the current
`_retryIndex` and advance the index; once the index has passed the
end of the schedule, keep using the last entry without advancing.
Returns `(delay in seconds, new retry index)`. -/
def retry (retryIndex : Nat) : Nat × Nat :=
  if Timeouts.length ≤ retryIndex then (Timeouts.getLastD 0, retryIndex)
  else (Timeouts.getD retryIndex 0, retryIndex + 1)

/-- The delays scheduled across `n` consecutive `Retry` entries
starting from retry index `i`, with no `Idle` entry in between. -/
def retryDelays : Nat → Nat → List Nat
  | _, 0 => []
  | i, n + 1 => (retry i).1 :: retryDelays (retry i).2 n

/-- The back-off sequence stated by the specification: the prefix
5 s, 10 s, 30 s, 60 s, 300 s and then capped at 300 s forever.
(Stated from the spec's words, for comparison with `retryDelays`.) -/
def backoffSchedule (n : Nat) : Nat :=
  if n < 5 then [5, 10, 30, 60, 300].getD n 0 else 300

/-- `RemoteConnector::onEntryIdleState` resets `_retryIndex` to 0;
the `Idle` state is entered after a successful `Welcome` or
`Account` (both submit the `account` event). -/
def onEntryIdleRetryIndex (_retryIndex : Nat) : Nat := 0

/-! ### Keepalive two-tick protocol (`RemoteConnector::ping`,
`RemoteConnector::binaryMessageReceived` Ping branch) -/

/-- Observable actions of the keepalive protocol. -/
inductive PingAction
  | sendPing
  | reconnect
  | startTimer
deriving DecidableEq, Repr

/-- `RemoteConnector::ping` (keepalive timer tick): if a ping reply
is still outstanding, clear the flag and reconnect; otherwise set
the flag and send a `Ping` frame.  Input and output are the
`_awaitingPing` flag. -/
def ping (awaitingPing : Bool) : Bool × List PingAction :=
  if awaitingPing then (false, [PingAction.reconnect])
  else (true, [PingAction.sendPing])

/-- The `message == PingMessage` branch of
`RemoteConnector::binaryMessageReceived`: clear `_awaitingPing` and
restart the keepalive timer. -/
def receivePing (_awaitingPing : Bool) : Bool × List PingAction :=
  (false, [PingAction.startTimer])

/-! ### Error triggering (`RemoteConnector::triggerError` and the
`specialOperationTimeout` connection in `initialize`) -/

/-- Events submitted to the SCXML connection state machine (only the
ones this development needs). -/
inductive SMEvent
  | basicError
  | fatalError
  | account
deriving DecidableEq, Repr

/-- `RemoteConnector::triggerError`: submit `basicError` when the
error is recoverable, `fatalError` otherwise. -/
def triggerError (canRecover : Bool) : SMEvent :=
  if canRecover then SMEvent.basicError else SMEvent.fatalError

/-- The handler `RemoteConnector::initialize` connects to the
`specialOperationTimeout` signal: it calls `triggerError(true)`. -/
def onSpecialOperationTimeout : SMEvent := triggerError true

/-! ### `WsRemoteConnector::reconnect` (the predecessor connector,
src/datasync/wsremoteconnector.cpp) -/

/-- The explicit connection states of `WsRemoteConnector`. -/
inductive WsState
  | Disconnected
  | Connecting
  | Connected
  | Identifying
  | Reloading
  | Operating
  | Idle
  | Closing
deriving DecidableEq, Repr

/-- The part of the `WsRemoteConnector` object state that
`reconnect` touches. -/
structure WsConn where
  state : WsState
  hasSocket : Bool
  retryIndex : Nat
  remoteUrlValid : Bool
  remoteEnabled : Bool
deriving DecidableEq, Repr

/-- Observable actions of `WsRemoteConnector::reconnect`. -/
inductive WsAction
  | closeSocket
  | openSocket
  | emitDisconnected
deriving DecidableEq, Repr

/-- `WsRemoteConnector::reconnect`: a no-op while `Connecting` or
`Closing`; with a live socket, move to `Closing` and close it;
otherwise start a fresh connection attempt (or give up and go to
`Disconnected` when the remote url is invalid or sync disabled). -/
def WsReconnect (c : WsConn) : WsConn × List WsAction :=
  if c.state = WsState.Connecting ∨ c.state = WsState.Closing then (c, [])
  else if c.hasSocket then ({ c with state := WsState.Closing }, [WsAction.closeSocket])
  else if c.remoteUrlValid && c.remoteEnabled then
    ({ c with state := WsState.Connecting }, [WsAction.openSocket])
  else
    ({ c with state := WsState.Disconnected }, [WsAction.emitDisconnected])

/-! ### Abstract cryptographic primitives

The crypto controller of the current sources is consumed through a
narrow capability surface; its primitives are modelled as
function-valued parameters over `Nat`-encoded keys, ciphertexts and
tags, so that everything stays executable. -/

/-- The cryptographic capabilities `RemoteConnector` consumes.
`cmac key data` is the CMAC tag used by `verifyCmac`;
`encKeyCmac key` is `generateEncryptionKeyCmac` over the raw key;
`asymDecrypt` is decryption with the own private encryption key;
`importCmac scheme key data` is the export-key CMAC of
`verifyImportCmac`; `importCmacForCrypto scheme key info` the
trustmac CMAC of `verifyImportCmacForCrypto`; `readKeys` validates a
peer's public keys and yields an `AsymmetricCryptoInfo` handle
(`none` models a thrown validation error); `encryptSecretKey info`
is `CryptoController::encryptSecretKey`, yielding
`(index, scheme, secret)` (`none` models a thrown error). -/
structure CryptoPrims where
  cmac : Nat → List Nat → Nat
  encKeyCmac : Nat → Nat
  asymDecrypt : Nat → Nat
  importCmac : Nat → Nat → List Nat → Nat
  importCmacForCrypto : Nat → Nat → Nat → Nat
  readKeys : Nat → Nat → Nat → Nat → Option Nat
  encryptSecretKey : Nat → Option (Nat × Nat × Nat)

/-- The symmetric-key state of `CryptoController`: the current key
index and the table of installed keys by index. -/
structure CState where
  current : Nat
  keys : List (Nat × Nat)
deriving DecidableEq, Repr

/-- The installed symmetric key of index `i` (0 if absent). -/
def CState.keyAt (s : CState) (i : Nat) : Nat :=
  (s.keys.lookup i).getD 0

/-- Modelled from the spec: `CryptoController::decryptSecretKey` is
not among the sources (only its callers are).  Section 4.1 lists
`decryptSecretKey(index, scheme, cipher, activateIfNewer)`; the
in-source call in `onWelcome` passes `false` under the comment
"import the key and set active if newer", while `onGrant` passes
`true` for the initial grant where activation is unconditional, and
section 4.3 states that after a `Welcome` the highest index is
installed as current.  Accordingly: the secret is always decrypted
and stored under `index`, and it becomes the current key when
`forceActivate` is set or `index` is newer than the current index.
(The symmetric scheme is folded into `asymDecrypt`.) -/
def decryptSecretKey (p : CryptoPrims) (s : CState) (index _scheme cipher : Nat)
    (forceActivate : Bool) : CState :=
  let secret := p.asymDecrypt cipher
  let s1 : CState := { current := s.current, keys := (index, secret) :: s.keys.filter (fun e => !(e.1 == index)) }
  if forceActivate || s.current < index then { s1 with current := index } else s1

/-! ### The `Welcome` handler (`RemoteConnector::onWelcome`,
`RemoteConnector::sendKeyUpdate`) -/

/-- One entry of `WelcomeMessage::keyUpdates`:
`(index, scheme, cipher, cmac)`. -/
structure KeyUpdate where
  index : Nat
  scheme : Nat
  cipher : Nat
  cmacTag : Nat
deriving DecidableEq, Repr

/-- The `Welcome` message: `hasChanges` and the ordered key-update
list. -/
structure WelcomeMessage where
  hasChanges : Bool
  keyUpdates : List KeyUpdate
deriving DecidableEq, Repr

/-- Modelled from the spec: `WelcomeMessage::signatureData` (the
message class is not among the sources).  It encodes the receiving
device id together with the key-update tuple; the encoding is
abstracted as the list of its components. -/
def signatureData (deviceId : Nat) (u : KeyUpdate) : List Nat :=
  [deviceId, u.index, u.scheme, u.cipher]

/-- Messages the connector sends that this development needs. -/
inductive OutMsg
  | macUpdate (keyIndex mac : Nat)
  | accept (deviceId index scheme secret : Nat)
  | deny (deviceId : Nat)
deriving DecidableEq, Repr

/-- The loop body of `onWelcome`, iterated over the key-update list:
verify each entry's cmac with the key of the current index
(`verifyCmac(_cryptoController->keyIndex(), signatureData, cmac)`,
a thrown verification error aborts the handler, modelled as `none`),
then import the entry via `decryptSecretKey(..., false)`.  Besides
the final crypto state the model returns, per entry, the key index
the verification used. -/
def processKeyUpdates (p : CryptoPrims) (deviceId : Nat) (s : CState) :
    List KeyUpdate → Option (CState × List Nat)
  | [] => some (s, [])
  | u :: rest =>
    if p.cmac (s.keyAt s.current) (signatureData deviceId u) == u.cmacTag then
      match processKeyUpdates p deviceId (decryptSecretKey p s u.index u.scheme u.cipher false) rest with
      | some (s1, vs) => some (s1, s.current :: vs)
      | none => none
    else none

/-- `RemoteConnector::sendKeyUpdate`: persist the `sendCmac` flag
and send `MacUpdate{keyIndex(), generateEncryptionKeyCmac()}`.
Returns the new flag value and the message. -/
def sendKeyUpdate (p : CryptoPrims) (s : CState) : Bool × OutMsg :=
  (true, OutMsg.macUpdate s.current (p.encKeyCmac (s.keyAt s.current)))

/-- Outcome of `RemoteConnector::onWelcome`. -/
inductive WelcomeResult
  | unexpected
  | failed
  | ok (s : CState) (sendCmacFlag : Bool) (expectChanges : Bool)
      (sent : List OutMsg) (verifiedUnder : List Nat)
deriving DecidableEq, Repr

/-- `RemoteConnector::onWelcome`: outside the `LoggingIn` state the
message is unexpected (`triggerError(true)`); otherwise record
`hasChanges`, process the ordered key updates, and send a
`MacUpdate` exactly when at least one key was updated or the
persisted `sendCmac` flag is set. -/
def onWelcome (p : CryptoPrims) (deviceId : Nat) (loggingIn : Bool) (s : CState)
    (sendCmacFlag : Bool) (m : WelcomeMessage) : WelcomeResult :=
  if loggingIn = false then WelcomeResult.unexpected
  else
    match processKeyUpdates p deviceId s m.keyUpdates with
    | none => WelcomeResult.failed
    | some (s1, vs) =>
      let keyUpdated := !m.keyUpdates.isEmpty
      if keyUpdated || sendCmacFlag then
        WelcomeResult.ok s1 (sendKeyUpdate p s1).1 m.hasChanges [(sendKeyUpdate p s1).2] vs
      else
        WelcomeResult.ok s1 sendCmacFlag m.hasChanges [] vs

/-! ### The `Proof` handler and `loginReply`
(`RemoteConnector::onProof`, `RemoteConnector::loginReply`,
`RemoteConnector::exportAccount`) -/

/-- The `Proof` message (server to client). -/
structure ProofMessage where
  pNonce : Nat
  deviceId : Nat
  signAlgorithm : Nat
  signKey : Nat
  cryptAlgorithm : Nat
  cryptKey : Nat
  macscheme : Nat
  cmacTag : Nat
  trustmac : Option Nat
deriving DecidableEq, Repr

/-- The part of the `RemoteConnector` object state the proof flow
touches: the own device id, the export cache
(`_exportsCache : pNonce ↦ export key`) and the pending proofs
(`_activeProofs : deviceId ↦ AsymmetricCryptoInfo handle`). -/
structure ConnState where
  deviceId : Nat
  exportsCache : List (Nat × Nat)
  activeProofs : List (Nat × Nat)
deriving DecidableEq, Repr

/-- Qt signals emitted by the proof flow. -/
inductive Signal
  | loginRequested (deviceId : Nat)
  | accountAccessGranted (deviceId : Nat)
  | prepareAddedData (deviceId : Nat)
deriving DecidableEq, Repr

/-- Result of a handler run: the new object state, the messages
sent, the signals emitted and the state-machine events raised. -/
structure HandlerResult where
  st : ConnState
  sent : List OutMsg
  signals : List Signal
  smEvents : List SMEvent
deriving DecidableEq, Repr

/-- `RemoteConnector::loginReply`: outside `Idle` the request is
dropped; otherwise take the cached proof for `deviceId` (a missing
entry means it was already handled); on accept, encrypt the current
secret for the peer and send `Accept`, emitting `prepareAddedData`
and `accountAccessGranted`; on rejection — or when encryption
throws — send `Deny`. -/
def loginReply (p : CryptoPrims) (idle : Bool) (st : ConnState) (deviceId : Nat)
    (accept : Bool) : HandlerResult :=
  if idle = false then ⟨st, [], [], []⟩
  else
    match st.activeProofs.find? (fun e => e.1 == deviceId) with
    | none => ⟨st, [], [], []⟩
    | some e =>
      let st1 : ConnState := { st with activeProofs := st.activeProofs.filter (fun x => !(x.1 == deviceId)) }
      if accept then
        match p.encryptSecretKey e.2 with
        | some r =>
          ⟨st1, [OutMsg.accept deviceId r.1 r.2.1 r.2.2],
            [Signal.prepareAddedData deviceId, Signal.accountAccessGranted deviceId], []⟩
        | none => ⟨st1, [OutMsg.deny deviceId], [], []⟩
      else ⟨st1, [OutMsg.deny deviceId], [], []⟩

/-- `RemoteConnector::onProof`: outside `Idle` the message is
unexpected (`triggerError(true)`).  Otherwise the export-cache entry
for `pNonce` is taken (removed) first; a missing entry, a cmac
mismatch, unreadable peer keys or a bad trustmac all end in a
`Deny` (the thrown exception is caught at the end of the handler).
With a valid trustmac the proof is accepted automatically through
`loginReply(deviceId, true)`; without a trustmac it is cached in
`_activeProofs` and `loginRequested` is emitted. -/
def onProof (p : CryptoPrims) (idle : Bool) (st : ConnState) (m : ProofMessage) : HandlerResult :=
  if idle = false then ⟨st, [], [], [SMEvent.basicError]⟩
  else
    let st1 : ConnState := { st with exportsCache := st.exportsCache.filter (fun e => !(e.1 == m.pNonce)) }
    match st.exportsCache.find? (fun e => e.1 == m.pNonce) with
    | none => ⟨st1, [OutMsg.deny m.deviceId], [], []⟩
    | some ek =>
      if !(p.importCmac m.macscheme ek.2 [m.pNonce, st.deviceId, m.macscheme] == m.cmacTag) then
        ⟨st1, [OutMsg.deny m.deviceId], [], []⟩
      else
        match p.readKeys m.signAlgorithm m.signKey m.cryptAlgorithm m.cryptKey with
        | none => ⟨st1, [OutMsg.deny m.deviceId], [], []⟩
        | some cryptInfo =>
          match m.trustmac with
          | some tm =>
            if !(p.importCmacForCrypto m.macscheme ek.2 cryptInfo == tm) then
              ⟨st1, [OutMsg.deny m.deviceId], [], []⟩
            else
              let st2 : ConnState := { st1 with
                activeProofs := (m.deviceId, cryptInfo) :: st1.activeProofs.filter (fun x => !(x.1 == m.deviceId)) }
              loginReply p true st2 m.deviceId true
          | none =>
            let st2 : ConnState := { st1 with
              activeProofs := (m.deviceId, cryptInfo) :: st1.activeProofs.filter (fun x => !(x.1 == m.deviceId)) }
            ⟨st2, [], [Signal.loginRequested m.deviceId], []⟩

/-- `RemoteConnector::exportAccount` (the cache aspect): a fresh
export nonce is inserted into `_exportsCache` together with the
generated export key. -/
def exportAccount (st : ConnState) (pNonce key : Nat) : ConnState :=
  { st with exportsCache := (pNonce, key) :: st.exportsCache.filter (fun e => !(e.1 == pNonce)) }

end QtDataSync

/-! ## Theorems -/

open QtDataSyncServer QtDataSync

section BackoffLemmas

/-- The delay list produced from any retry index `i ≤ 5` follows the
schedule shifted by `i`. -/
theorem retryDelays_eq_schedule :
    ∀ (n i : Nat), i ≤ 5 →
      retryDelays i n = (List.range n).map (fun k => backoffSchedule (i + k)) := by
  intro n
  induction n with
  | zero => intro i _; rfl
  | succ n ih =>
    intro i hi
    by_cases h : 5 ≤ i
    · have hi5 : i = 5 := le_antisymm hi h
      subst hi5
      have hconst : ∀ m : Nat, (List.range m).map (fun k => backoffSchedule (5 + k)) =
          List.replicate m 300 := by
        intro m
        apply List.eq_replicate_iff.2
        refine ⟨by simp, ?_⟩
        intro b hb
        simp only [List.mem_map, List.mem_range] at hb
        obtain ⟨k, -, rfl⟩ := hb
        simp [backoffSchedule]
      have hr : retry 5 = (300, 5) := by decide
      rw [retryDelays, hr]
      simp only [hconst]
      rw [ih 5 (by omega), hconst]
      rfl
    · have hlt : i < 5 := by omega
      have hr : retry i = (Timeouts.getD i 0, i + 1) := by
        unfold retry
        rw [if_neg (by simp [Timeouts]; omega)]
      rw [retryDelays, hr]
      simp only []
      rw [ih (i + 1) (by omega), List.range_succ_eq_map, List.map_cons, List.map_map]
      have hhead : Timeouts.getD i 0 = backoffSchedule (i + 0) := by
        simp [Timeouts, backoffSchedule, hlt]
      rw [hhead]
      have hfun : ((fun k => backoffSchedule (i + k)) ∘ Nat.succ) =
          fun k => backoffSchedule (i + 1 + k) := by
        funext k
        simp only [Function.comp]
        congr 1
        omega
      rw [hfun]

end BackoffLemmas

/-- Claim C5: across consecutive `Retry` entries with no successful
`Welcome`/`Account` in between, the scheduled delays are exactly the
prefix of 5 s, 10 s, 30 s, 60 s, 300 s, 300 s, …; the retry index is
advanced and capped at the schedule length; reaching `Idle` (after a
successful `Welcome` or `Account`) resets the index to 0. -/
theorem C5_backoff (n : Nat) :
    retryDelays 0 n = (List.range n).map backoffSchedule
  ∧ (∀ i, i ≤ Timeouts.length → (retry i).2 = min (i + 1) Timeouts.length)
  ∧ (∀ i, onEntryIdleRetryIndex i = 0) := by
  refine ⟨?_, ?_, fun _ => rfl⟩
  · rw [retryDelays_eq_schedule n 0 (by omega)]
    simp
  · intro i hi
    unfold retry
    by_cases h : Timeouts.length ≤ i
    · rw [if_pos h]
      simp only [Timeouts] at *
      simp at *
      omega
    · rw [if_neg h]
      simp only [Timeouts] at *
      simp at *
      omega

/-- Witness for C5 at concrete inputs: seven consecutive retries
from a fresh index produce 5, 10, 30, 60, 300, 300, 300 and the
index stays capped at 5. -/
theorem C5_backoff_witness :
    retryDelays 0 7 = [5, 10, 30, 60, 300, 300, 300] ∧ (retry 5).2 = 5 := by
  constructor
  · have h := (C5_backoff 7).1
    simpa [backoffSchedule] using h
  · have h := (C5_backoff 0).2.1 5 (by decide)
    simpa using h

/-- Claim C8: the keepalive is a two-tick protocol.  A tick with the
awaiting-ping flag clear sends a `Ping` frame and sets the flag; a
received `Ping` reply clears the flag and restarts the timer; a tick
with the flag still set clears it and reconnects.  Composed: tick
then unanswered tick reconnects, while tick, reply, tick just pings
again. -/
theorem C8_keepalive :
    ping false = (true, [PingAction.sendPing])
  ∧ (∀ b, receivePing b = (false, [PingAction.startTimer]))
  ∧ ping true = (false, [PingAction.reconnect])
  ∧ (ping (ping false).1).2 = [PingAction.reconnect]
  ∧ (ping (receivePing (ping false).1).1).2 = [PingAction.sendPing] := by
  refine ⟨rfl, fun b => rfl, rfl, rfl, rfl⟩

/-- Claim C9: calling `reconnect()` while the connection state is
`Connecting` or `Closing` is a no-op: the state, socket and retry
index are unchanged and no action (in particular no new connection
attempt) is performed. -/
theorem C9_reconnect_noop (c : WsConn)
    (h : c.state = WsState.Connecting ∨ c.state = WsState.Closing) :
    WsReconnect c = (c, []) := by
  unfold WsReconnect
  rw [if_pos h]

/-- Witness for C9: a connector mid-`Connecting` with a live socket
and a nonzero retry index is left exactly as it is. -/
theorem C9_reconnect_noop_witness :
    WsReconnect ⟨WsState.Connecting, true, 2, true, true⟩ =
      (⟨WsState.Connecting, true, 2, true, true⟩, []) :=
  C9_reconnect_noop _ (Or.inl rfl)

/-- Claim C3 counterexample: the `specialOperationTimeout` handler
calls `triggerError(true)`, which submits the recoverable
`basicError` event, not `fatalError`. -/
theorem C3_timeout_counterexample :
    onSpecialOperationTimeout = SMEvent.basicError
  ∧ SMEvent.basicError ≠ SMEvent.fatalError := by
  exact ⟨rfl, by decide⟩

/-- Claim C3 (amended): whenever an armed operation timer expires,
`specialOperationTimeout` calls `triggerError(canRecover = true)`,
submitting a `basicError` (recoverable) transition; `fatalError` is
submitted exactly for `triggerError(false)`. -/
theorem C3_timeout_is_basicError :
    onSpecialOperationTimeout = triggerError true
  ∧ triggerError true = SMEvent.basicError
  ∧ (∀ b, triggerError b = SMEvent.fatalError ↔ b = false) := by
  refine ⟨rfl, rfl, ?_⟩
  intro b
  cases b <;> simp [triggerError]

/-- Claim C4: `identify` refuses a login for a non-member user —
it returns `false` and leaves the database unchanged (in particular
it inserts no device row) — while for an existing user it inserts
the device row with on-conflict-do-nothing semantics and returns
`true`: afterwards a matching device row exists, nothing else is
touched, and an already-registered device leaves the database
exactly as it was. -/
theorem C4_identify (o : QueryOracle) (db : DB) (identity deviceId : Nat) :
    (identity ∉ db.users → identify o db identity deviceId = (db, false))
  ∧ (identity ∈ db.users → o.q1 = true → o.q2 = true →
      (identify o db identity deviceId).2 = true
    ∧ (identify o db identity deviceId).1.users = db.users
    ∧ (identify o db identity deviceId).1.dataRows = db.dataRows
    ∧ (identify o db identity deviceId).1.states = db.states
    ∧ (∃ r ∈ (identify o db identity deviceId).1.devices, r.deviceid = deviceId ∧ r.userid = identity)
    ∧ ((∃ r ∈ db.devices, r.deviceid = deviceId ∧ r.userid = identity) →
        (identify o db identity deviceId).1 = db)) := by
  constructor
  · intro h
    unfold identify
    by_cases hq : o.q1 = false
    · rw [if_pos hq]
    · rw [if_neg hq, if_neg h]
  · intro hmem hq1 hq2
    unfold identify
    rw [if_neg (by simp [hq1]), if_pos hmem, if_neg (by simp [hq2])]
    by_cases hex : ∃ d ∈ db.devices, d.deviceid = deviceId ∧ d.userid = identity
    · rw [if_pos hex]
      exact ⟨rfl, rfl, rfl, rfl, hex, fun _ => rfl⟩
    · rw [if_neg hex]
      refine ⟨rfl, rfl, rfl, rfl, ?_, fun h => absurd h hex⟩
      exact ⟨{ id := db.nextDeviceId, deviceid := deviceId, userid := identity },
        by simp, rfl, rfl⟩

/-- A small concrete database used by witnesses: one user `1` with
no devices yet. -/
def dbOneUser : DB :=
  { users := [1], devices := [], dataRows := [], states := [],
    nextDeviceId := 1, nextDataIndex := 1 }

/-- Witness for C4 at concrete inputs: login for a non-member fails
and changes nothing; login for a member succeeds and a device row
exists afterwards. -/
theorem C4_identify_witness :
    identify QueryOracle.ok dbOneUser 2 10 = (dbOneUser, false)
  ∧ (identify QueryOracle.ok dbOneUser 1 10).2 = true := by
  constructor
  · exact (C4_identify QueryOracle.ok dbOneUser 2 10).1 (by decide)
  · exact ((C4_identify QueryOracle.ok dbOneUser 1 10).2 (by decide) rfl rfl).1

/-- Claim C7: `createIdentity` and `save` are atomic.  If the
operation reports failure (`none`, resp. `false`) the database is
exactly the pre-transaction database, and it reports success only
when every executed SQL step — transaction begin, each query, and
the commit — succeeded. -/
theorem C7_atomicity (o : QueryOracle) (db : DB) (uid did nid : Nat) (t k j : String) :
    ((save o db uid did t k j).2 = false → (save o db uid did t k j).1 = db)
  ∧ ((save o db uid did t k j).2 = true →
      o.txBegin = true ∧ o.q1 = true ∧ o.q2 = true ∧ o.q3 = true ∧ o.commit = true)
  ∧ ((createIdentity o db nid did).2 = none → (createIdentity o db nid did).1 = db)
  ∧ ((createIdentity o db nid did).2.isSome = true →
      o.txBegin = true ∧ o.q1 = true ∧ o.q2 = true ∧ o.commit = true) := by
  obtain ⟨tb, q1, q2, q3, cm⟩ := o
  cases tb <;> cases q1 <;> cases q2 <;> cases q3 <;> cases cm <;>
    cases hf : db.findDataIndex uid t k <;>
      simp_all [save, saveStates, createIdentity]

/-- A concrete database used by witnesses: one user `1` with one
registered device. -/
def dbOneDevice : DB :=
  { users := [1], devices := [⟨1, 10, 1⟩], dataRows := [], states := [],
    nextDeviceId := 2, nextDataIndex := 1 }

/-- An oracle whose commit step fails. -/
def oracleNoCommit : QueryOracle := ⟨true, true, true, true, false⟩

/-- Witness for C7 at concrete inputs: with a failing commit, `save`
returns `false` and the database is untouched; likewise
`createIdentity` returns a null uuid and changes nothing. -/
theorem C7_atomicity_witness :
    (save oracleNoCommit dbOneDevice 1 10 "t" "k" "o").1 = dbOneDevice
  ∧ (createIdentity oracleNoCommit dbOneDevice 7 11).1 = dbOneDevice := by
  constructor
  · exact (C7_atomicity oracleNoCommit dbOneDevice 1 10 7 "t" "k" "o").1 (by decide)
  · exact (C7_atomicity oracleNoCommit dbOneDevice 1 10 7 "t" "k" "o").2.2.1 (by decide)

section WelcomeLemmas

/-- The last element (with default) of a nonempty list is a member. -/
theorem getLastD_mem_of_ne_nil : ∀ (l : List Nat) (d : Nat), l ≠ [] → l.getLastD d ∈ l := by
  intro l
  induction l with
  | nil => intro d h; exact absurd rfl h
  | cons x t ih =>
    intro d _
    cases t with
    | nil => simp
    | cons y t2 =>
      rw [List.getLastD_cons]
      exact List.mem_cons_of_mem x (ih x (by simp))

/-- Behaviour of the `onWelcome` key-update loop on a strictly
ascending update list whose indices are all newer than the current
key: every entry is verified with the key index reached after the
previous entry (initially the current index), every secret is
decrypted and installed, and the current index ends on the list's
last entry. -/
theorem processKeyUpdates_spec (p : CryptoPrims) (dev : Nat) :
    ∀ (l : List KeyUpdate) (s s1 : CState) (vs : List Nat),
      (∀ u ∈ l, s.current < u.index) →
      (l.map KeyUpdate.index).Pairwise (· < ·) →
      processKeyUpdates p dev s l = some (s1, vs) →
      vs = (s.current :: l.map KeyUpdate.index).dropLast
      ∧ s1.current = (l.map KeyUpdate.index).getLastD s.current
      ∧ s.current ≤ s1.current
      ∧ (∀ u ∈ l, u.index ≤ s1.current)
      ∧ (∀ i v, (i, v) ∈ s.keys → (∀ u ∈ l, u.index ≠ i) → (i, v) ∈ s1.keys)
      ∧ (∀ u ∈ l, (u.index, p.asymDecrypt u.cipher) ∈ s1.keys) := by
  intro l
  induction l with
  | nil =>
    intro s s1 vs _ _ hp
    simp only [processKeyUpdates, Option.some.injEq, Prod.mk.injEq] at hp
    obtain ⟨hs, hv⟩ := hp
    subst hs; subst hv
    refine ⟨rfl, rfl, le_refl _, by simp, by simp, by simp⟩
  | cons u rest ih =>
    intro s s1 vs hgt hpw hp
    have hult : s.current < u.index := hgt u (List.mem_cons_self u rest)
    simp only [processKeyUpdates] at hp
    by_cases hc : p.cmac (s.keyAt s.current) (signatureData dev u) == u.cmacTag
    case neg => rw [if_neg hc] at hp; exact absurd hp (by simp)
    rw [if_pos hc] at hp
    set s2 := decryptSecretKey p s u.index u.scheme u.cipher false with hs2
    have hs2cur : s2.current = u.index := by
      rw [hs2]
      unfold decryptSecretKey
      rw [if_pos (by simp [hult])]
    have hs2keys : s2.keys = (u.index, p.asymDecrypt u.cipher) ::
        s.keys.filter (fun e => !(e.1 == u.index)) := by
      rw [hs2]
      unfold decryptSecretKey
      rw [if_pos (by simp [hult])]
    cases hrec : processKeyUpdates p dev s2 rest with
    | none => rw [hrec] at hp; exact absurd hp (by simp)
    | some pr =>
      obtain ⟨s3, vs3⟩ := pr
      rw [hrec] at hp
      simp only [Option.some.injEq, Prod.mk.injEq] at hp
      obtain ⟨hs3, hvs⟩ := hp
      subst hs3
      have hpw2 : (rest.map KeyUpdate.index).Pairwise (· < ·) := (List.pairwise_cons.1 hpw).2
      have hhead : ∀ b ∈ rest.map KeyUpdate.index, u.index < b := (List.pairwise_cons.1 hpw).1
      have hgt2 : ∀ v ∈ rest, s2.current < v.index := by
        intro v hv
        rw [hs2cur]
        exact hhead v.index (List.mem_map_of_mem KeyUpdate.index hv)
      obtain ⟨ih1, ih2, ih3, ih4, ih5, ih6⟩ := ih s2 s3 vs3 hgt2 hpw2 hrec
      have hu_le : u.index ≤ s3.current := by rw [← hs2cur]; exact ih3
      refine ⟨?_, ?_, ?_, ?_, ?_, ?_⟩
      · subst hvs
        rw [ih1, hs2cur]
        simp [List.dropLast]
      · rw [List.map_cons, List.getLastD_cons, ih2, hs2cur]
      · exact le_trans (le_of_lt hult) hu_le
      · intro v hv
        rcases List.mem_cons.1 hv with rfl | hv2
        · exact hu_le
        · exact ih4 v hv2
      · intro i v hiv hne
        have hiu : u.index ≠ i := hne u (List.mem_cons_self u rest)
        apply ih5 i v
        · rw [hs2keys]
          apply List.mem_cons_of_mem
          rw [List.mem_filter]
          exact ⟨hiv, by simp [Ne.symm hiu]⟩
        · intro w hw
          exact hne w (List.mem_cons_of_mem u hw)
      · intro v hv
        rcases List.mem_cons.1 hv with rfl | hv2
        · apply ih5
          · rw [hs2keys]; exact List.mem_cons_self _ _
          · intro w hw
            exact Nat.ne_of_gt (hhead w.index (List.mem_map_of_mem KeyUpdate.index hw))
        · exact ih6 v hv2

end WelcomeLemmas

/-- Claim C2: processing a `WelcomeMessage` in the `LoggingIn` state
with key updates ordered by (strictly ascending, newer-than-current)
index: each entry's cmac is verified under the key index reached
after the immediately preceding entry (`vs` records the index used
per entry: the initial current index, then each predecessor's
index), each secret is decrypted and installed, afterwards the
current index is the maximum index of the list, and a
`MacUpdate{currentIndex, cmac}` is sent if and only if at least one
key was updated or the persisted `sendCmac` flag is set. -/
theorem C2_onWelcome (p : CryptoPrims) (dev : Nat) (s s1 : CState) (flag : Bool)
    (m : WelcomeMessage) (vs : List Nat)
    (hgt : ∀ u ∈ m.keyUpdates, s.current < u.index)
    (hpw : (m.keyUpdates.map KeyUpdate.index).Pairwise (· < ·))
    (hproc : processKeyUpdates p dev s m.keyUpdates = some (s1, vs)) :
    vs = (s.current :: m.keyUpdates.map KeyUpdate.index).dropLast
  ∧ (∀ u ∈ m.keyUpdates, (u.index, p.asymDecrypt u.cipher) ∈ s1.keys)
  ∧ (m.keyUpdates ≠ [] →
      s1.current ∈ m.keyUpdates.map KeyUpdate.index
    ∧ (∀ u ∈ m.keyUpdates, u.index ≤ s1.current))
  ∧ (m.keyUpdates = [] → flag = false →
      onWelcome p dev true s flag m = WelcomeResult.ok s1 flag m.hasChanges [] vs)
  ∧ ((m.keyUpdates ≠ [] ∨ flag = true) →
      onWelcome p dev true s flag m =
        WelcomeResult.ok s1 true m.hasChanges
          [OutMsg.macUpdate s1.current (p.encKeyCmac (s1.keyAt s1.current))] vs) := by
  obtain ⟨h1, h2, _h3, h4, _h5, h6⟩ :=
    processKeyUpdates_spec p dev m.keyUpdates s s1 vs hgt hpw hproc
  refine ⟨h1, h6, ?_, ?_, ?_⟩
  · intro hne
    have hmapne : m.keyUpdates.map KeyUpdate.index ≠ [] := by
      simpa using hne
    constructor
    · rw [h2]
      exact getLastD_mem_of_ne_nil _ _ hmapne
    · exact h4
  · intro hnil hflag
    unfold onWelcome
    rw [if_neg (by simp), hproc]
    simp only [hnil, hflag, List.isEmpty_nil, Bool.not_true, Bool.false_or, if_neg]
    rfl
  · intro hcond
    unfold onWelcome
    rw [if_neg (by simp), hproc]
    have : (!m.keyUpdates.isEmpty || flag) = true := by
      rcases hcond with hne | hfl
      · simp [List.isEmpty_iff, hne]
      · simp [hfl]
    simp only [this, if_pos]
    rfl

/-- Concrete crypto primitives used by witnesses. -/
def primsW : CryptoPrims :=
  { cmac := fun k l => k + l.sum
    encKeyCmac := fun k => k * 2
    asymDecrypt := fun c => c
    importCmac := fun sch k l => sch + k + l.sum
    importCmacForCrypto := fun sch k i => sch + k + i
    readKeys := fun _ sk _ ck => some (sk + ck)
    encryptSecretKey := fun i => some (i, i, i) }

/-- Concrete crypto-controller state used by witnesses: current key
index 1, key 10 installed. -/
def cstateW : CState := { current := 1, keys := [(1, 10)] }

/-- A concrete `Welcome` message with two ordered key updates whose
cmacs are valid under `primsW` and `cstateW`. -/
def welcomeW : WelcomeMessage :=
  { hasChanges := true
    keyUpdates := [⟨2, 0, 5, 24⟩, ⟨3, 0, 6, 21⟩] }

/-- Witness for C2 at concrete inputs: both keys are verified under
their predecessors (indices 1 then 2), installed, the current index
ends at 3, and a `MacUpdate{3, cmac}` is sent. -/
theorem C2_onWelcome_witness :
    onWelcome primsW 7 true cstateW false welcomeW =
      WelcomeResult.ok ⟨3, [(3, 6), (2, 5), (1, 10)]⟩ true true
        [OutMsg.macUpdate 3 12] [1, 2] := by
  have h := C2_onWelcome primsW 7 cstateW ⟨3, [(3, 6), (2, 5), (1, 10)]⟩ false welcomeW [1, 2]
    (by decide) (by decide) (by decide)
  exact h.2.2.2.2 (Or.inl (by decide))

section ProofLemmas

/-- `loginReply` never touches the export cache. -/
theorem loginReply_exportsCache (p : CryptoPrims) (idle : Bool) (st : ConnState)
    (d : Nat) (a : Bool) :
    (loginReply p idle st d a).st.exportsCache = st.exportsCache := by
  unfold loginReply
  by_cases h : idle = false
  · rw [if_pos h]
  · rw [if_neg h]
    rcases hf : st.activeProofs.find? (fun e => e.1 == d) with _ | e
    · simp only [hf]
    · simp only [hf]
      cases a
      · simp
      · rcases he : p.encryptSecretKey e.2 with _ | r
        · simp [he]
        · simp [he]

/-- After `onProof` handles a message in `Idle`, the export-cache
entry for the message's nonce has been removed, whatever the outcome
was: the remaining cache is exactly the old cache filtered of that
nonce. -/
theorem onProof_exportsCache (p : CryptoPrims) (st : ConnState) (m : ProofMessage) :
    (onProof p true st m).st.exportsCache =
      st.exportsCache.filter (fun e => !(e.1 == m.pNonce)) := by
  unfold onProof
  rw [if_neg (by simp)]
  rcases hf : st.exportsCache.find? (fun e => e.1 == m.pNonce) with _ | ek
  · simp only [hf]
  · simp only [hf]
    by_cases hb : (!(p.importCmac m.macscheme ek.2 [m.pNonce, st.deviceId, m.macscheme] == m.cmacTag)) = true
    · simp only [hb, if_true]
    · rw [Bool.not_eq_true] at hb
      simp only [hb, Bool.false_eq_true, if_false]
      rcases hr : p.readKeys m.signAlgorithm m.signKey m.cryptAlgorithm m.cryptKey with _ | ci
      · simp only [hr]
      · simp only [hr]
        rcases htm : m.trustmac with _ | tm
        · simp only [htm]
        · simp only [htm]
          by_cases ht : (!(p.importCmacForCrypto m.macscheme ek.2 ci == tm)) = true
          · simp only [ht, if_true]
          · rw [Bool.not_eq_true] at ht
            simp only [ht, Bool.false_eq_true, if_false]
            rw [loginReply_exportsCache]

end ProofLemmas

/-- When the pending proof for `d` is at the head of the active
proofs and the secret encrypts successfully, an accepting
`loginReply` sends `Accept` and emits `prepareAddedData` and
`accountAccessGranted`. -/
theorem loginReply_accept_head (p : CryptoPrims) (st : ConnState) (d ci i sch sec : Nat)
    (hhead : st.activeProofs.find? (fun e => e.1 == d) = some (d, ci))
    (henc : p.encryptSecretKey ci = some (i, sch, sec)) :
    (loginReply p true st d true).sent = [OutMsg.accept d i sch sec]
  ∧ (loginReply p true st d true).signals =
      [Signal.prepareAddedData d, Signal.accountAccessGranted d] := by
  unfold loginReply
  rw [if_neg (by simp)]
  simp only [hhead, henc, if_true]
  exact ⟨by trivial, by trivial⟩

/-- Claim C6: on a `ProofMessage` whose export-cache entry exists and
whose cmac verifies: with a non-null, valid trustmac the client
automatically sends `Accept{deviceId, index, scheme, secret}` and
emits `accountAccessGranted` (never `loginRequested`); with a null
trustmac the proof is cached in the active proofs, `loginRequested`
is emitted, and neither `Accept` nor `Deny` is sent by the handler
(the decision is deferred to `loginReply` or the proof timeout). -/
theorem C6_onProof (p : CryptoPrims) (st : ConnState) (m : ProofMessage) (k ci : Nat)
    (hfind : st.exportsCache.find? (fun e => e.1 == m.pNonce) = some (m.pNonce, k))
    (hcmac : p.importCmac m.macscheme k [m.pNonce, st.deviceId, m.macscheme] = m.cmacTag)
    (hread : p.readKeys m.signAlgorithm m.signKey m.cryptAlgorithm m.cryptKey = some ci) :
    (∀ tm i sch sec, m.trustmac = some tm →
      p.importCmacForCrypto m.macscheme k ci = tm →
      p.encryptSecretKey ci = some (i, sch, sec) →
      (onProof p true st m).sent = [OutMsg.accept m.deviceId i sch sec]
      ∧ (onProof p true st m).signals =
          [Signal.prepareAddedData m.deviceId, Signal.accountAccessGranted m.deviceId]
      ∧ ∀ d, Signal.loginRequested d ∉ (onProof p true st m).signals)
  ∧ (m.trustmac = none →
      (onProof p true st m).sent = []
      ∧ (onProof p true st m).signals = [Signal.loginRequested m.deviceId]
      ∧ (m.deviceId, ci) ∈ (onProof p true st m).st.activeProofs) := by
  constructor
  · intro tm i sch sec htm htv henc
    unfold onProof
    rw [if_neg (by simp)]
    simp only [hfind, hcmac, beq_self_eq_true, Bool.not_true, Bool.false_eq_true, if_false,
      hread, htm, htv]
    obtain ⟨ha, hb⟩ := loginReply_accept_head p
      ⟨st.deviceId, st.exportsCache.filter (fun e => !(e.1 == m.pNonce)),
        (m.deviceId, ci) :: st.activeProofs.filter (fun x => !(x.1 == m.deviceId))⟩
      m.deviceId ci i sch sec (List.find?_cons_of_pos _ (by simp)) henc
    refine ⟨ha, hb, ?_⟩
    intro d
    rw [hb]
    simp
  · intro htm
    unfold onProof
    rw [if_neg (by simp)]
    simp only [hfind, hcmac, beq_self_eq_true, Bool.not_true, Bool.false_eq_true, if_false,
      hread, htm]
    refine ⟨by trivial, by trivial, ?_⟩
    exact List.mem_cons_self _ _

/-- Concrete connector state for witnesses: own device 7, one export
cache entry `(nonce 5 ↦ key 20)`, no pending proofs. -/
def connW : ConnState := { deviceId := 7, exportsCache := [(5, 20)], activeProofs := [] }

/-- A concrete trusted `Proof` message valid under `primsW` and
`connW`. -/
def proofTrustedW : ProofMessage :=
  { pNonce := 5, deviceId := 9, signAlgorithm := 1, signKey := 2, cryptAlgorithm := 1,
    cryptKey := 3, macscheme := 4, cmacTag := 40, trustmac := some 29 }

/-- The same concrete `Proof` message without a trustmac. -/
def proofUntrustedW : ProofMessage :=
  { pNonce := 5, deviceId := 9, signAlgorithm := 1, signKey := 2, cryptAlgorithm := 1,
    cryptKey := 3, macscheme := 4, cmacTag := 40, trustmac := none }

/-- Witness for C6 at concrete inputs: the trusted proof is accepted
automatically without `loginRequested`; the untrusted one only emits
`loginRequested`. -/
theorem C6_onProof_witness :
    (onProof primsW true connW proofTrustedW).sent = [OutMsg.accept 9 5 5 5]
  ∧ (∀ d, Signal.loginRequested d ∉ (onProof primsW true connW proofTrustedW).signals)
  ∧ (onProof primsW true connW proofUntrustedW).sent = []
  ∧ (onProof primsW true connW proofUntrustedW).signals = [Signal.loginRequested 9] := by
  have h1 := (C6_onProof primsW connW proofTrustedW 20 5
    (by decide) (by decide) (by decide)).1 29 5 5 5 rfl (by decide) (by decide)
  have h2 := (C6_onProof primsW connW proofUntrustedW 20 5
    (by decide) (by decide) (by decide)).2 rfl
  exact ⟨h1.1, h1.2.2, h2.1, h2.2.1⟩

/-- Claim C10: each export nonce is accepted at most once.  Handling
a `ProofMessage` removes the export-cache entry for its nonce before
any verification, whatever the outcome; a `ProofMessage` whose nonce
is not in the cache is answered with exactly a `DenyMessage` (no
`Accept`, no signal); hence of two `ProofMessage`s carrying the same
nonce with no intervening `exportAccount`, the second is always
denied. -/
theorem C10_nonce_single_use (p : CryptoPrims) (st : ConnState) (m m2 : ProofMessage) :
    m.pNonce ∉ ((onProof p true st m).st.exportsCache.map Prod.fst)
  ∧ (m.pNonce ∉ st.exportsCache.map Prod.fst →
      (onProof p true st m).sent = [OutMsg.deny m.deviceId]
    ∧ (onProof p true st m).signals = [])
  ∧ (m2.pNonce = m.pNonce →
      (onProof p true (onProof p true st m).st m2).sent = [OutMsg.deny m2.deviceId]
    ∧ (onProof p true (onProof p true st m).st m2).signals = []) := by
  have hrem : ∀ (st2 : ConnState) (mm : ProofMessage),
      mm.pNonce ∉ ((onProof p true st2 mm).st.exportsCache.map Prod.fst) := by
    intro st2 mm
    rw [onProof_exportsCache]
    intro hmem
    simp only [List.mem_map] at hmem
    obtain ⟨e, he, hfst⟩ := hmem
    rw [List.mem_filter] at he
    have := he.2
    simp only [Bool.not_eq_true', beq_eq_false_iff_ne, ne_eq] at this
    exact this hfst
  have hdeny : ∀ (st2 : ConnState) (mm : ProofMessage),
      mm.pNonce ∉ st2.exportsCache.map Prod.fst →
      (onProof p true st2 mm).sent = [OutMsg.deny mm.deviceId]
      ∧ (onProof p true st2 mm).signals = [] := by
    intro st2 mm hnm
    have hfind : st2.exportsCache.find? (fun e => e.1 == mm.pNonce) = none := by
      apply List.find?_eq_none.2
      intro x hx
      simp only [Bool.not_eq_true, beq_eq_false_iff_ne, ne_eq]
      intro hxx
      exact hnm (List.mem_map.2 ⟨x, hx, hxx⟩)
    unfold onProof
    rw [if_neg (by simp)]
    simp only [hfind]
    exact ⟨by trivial, by trivial⟩
  refine ⟨hrem st m, hdeny st m, fun h2 => ?_⟩
  apply hdeny
  rw [h2]
  exact hrem st m

/-- Witness for C10 at concrete inputs: replaying the same (even
valid and trusted) proof message is denied the second time. -/
theorem C10_nonce_single_use_witness :
    (onProof primsW true (onProof primsW true connW proofTrustedW).st proofTrustedW).sent
      = [OutMsg.deny 9]
  ∧ (onProof primsW true (onProof primsW true connW proofTrustedW).st proofTrustedW).signals
      = [] :=
  (C10_nonce_single_use primsW connW proofTrustedW proofTrustedW).2.2 rfl

section SaveLemmas

/-- The `states` insert-select only adds rows. -/
theorem insertStatesAux_subset (idx uid did : Nat) :
    ∀ (ds : List DeviceRow) (st : List (Nat × Nat)), ∀ x ∈ st,
      x ∈ insertStatesAux idx uid did ds st := by
  intro ds
  induction ds with
  | nil => intro st x hx; exact hx
  | cons d rest ih =>
    intro st x hx
    unfold insertStatesAux
    split
    · exact ih _ x (List.mem_append_left _ hx)
    · exact ih _ x hx

/-- The `states` insert-select preserves the primary-key property
(no duplicate rows). -/
theorem insertStatesAux_nodup (idx uid did : Nat) :
    ∀ (ds : List DeviceRow) (st : List (Nat × Nat)), st.Nodup →
      (insertStatesAux idx uid did ds st).Nodup := by
  intro ds
  induction ds with
  | nil => intro st h; exact h
  | cons d rest ih =>
    intro st h
    unfold insertStatesAux
    split
    · rename_i hcond
      apply ih
      rw [List.nodup_append]
      refine ⟨h, List.nodup_singleton _, ?_⟩
      intro x hx hx2
      simp only [List.mem_singleton] at hx2
      subst hx2
      exact hcond.2.2 hx
    · exact ih _ h

/-- Membership in the result of the `states` insert-select: exactly
the old rows plus one row `(idx, d.id)` per matching device. -/
theorem insertStatesAux_mem (idx uid did : Nat) :
    ∀ (ds : List DeviceRow) (st : List (Nat × Nat)) (x : Nat × Nat),
      x ∈ insertStatesAux idx uid did ds st ↔
        x ∈ st ∨ ∃ d ∈ ds, d.userid = uid ∧ d.deviceid ≠ did ∧ x = (idx, d.id) := by
  intro ds
  induction ds with
  | nil => intro st x; simp [insertStatesAux]
  | cons d rest ih =>
    intro st x
    unfold insertStatesAux
    split
    · rename_i hcond
      rw [ih]
      constructor
      · rintro (hx | hex)
        · rcases List.mem_append.1 hx with h1 | h2
          · exact Or.inl h1
          · simp only [List.mem_singleton] at h2
            exact Or.inr ⟨d, List.mem_cons_self d rest, hcond.1, hcond.2.1, h2⟩
        · obtain ⟨d2, hd2, hp⟩ := hex
          exact Or.inr ⟨d2, List.mem_cons_of_mem d hd2, hp⟩
      · rintro (hx | ⟨d2, hd2, h1, h2, h3⟩)
        · exact Or.inl (List.mem_append_left _ hx)
        · rcases List.mem_cons.1 hd2 with rfl | hd2r
          · exact Or.inl (List.mem_append_right _ (by simp [h3]))
          · exact Or.inr ⟨d2, hd2r, h1, h2, h3⟩
    · rename_i hcond
      push_neg at hcond
      rw [ih]
      constructor
      · rintro (hx | ⟨d2, hd2, hp⟩)
        · exact Or.inl hx
        · exact Or.inr ⟨d2, List.mem_cons_of_mem d hd2, hp⟩
      · rintro (hx | ⟨d2, hd2, h1, h2, h3⟩)
        · exact Or.inl hx
        · rcases List.mem_cons.1 hd2 with rfl | hd2r
          · exact Or.inl (h3 ▸ hcond h1 h2)
          · exact Or.inr ⟨d2, hd2r, h1, h2, h3⟩

/-- Rows the insert-select can never produce keep their
multiplicity. -/
theorem insertStatesAux_count_eq (idx uid did : Nat) :
    ∀ (ds : List DeviceRow) (st : List (Nat × Nat)) (e : Nat × Nat),
      (∀ d ∈ ds, d.userid = uid → d.deviceid ≠ did → (idx, d.id) ≠ e) →
      (insertStatesAux idx uid did ds st).count e = st.count e := by
  intro ds
  induction ds with
  | nil => intro st e _; rfl
  | cons d rest ih =>
    intro st e hne
    unfold insertStatesAux
    split
    · rename_i hcond
      rw [ih _ e (fun d2 hd2 => hne d2 (List.mem_cons_of_mem d hd2))]
      rw [List.count_append]
      have hne1 : (idx, d.id) ≠ e := hne d (List.mem_cons_self d rest) hcond.1 hcond.2.1
      have h0 : List.count e [(idx, d.id)] = 0 := by
        rw [List.count_eq_zero, List.mem_singleton]
        exact Ne.symm hne1
      rw [h0, Nat.add_zero]
    · exact ih _ e (fun d2 hd2 => hne d2 (List.mem_cons_of_mem d hd2))

/-- When every row the insert-select would add is already present,
it is the identity (on-conflict-do-nothing makes replay idempotent). -/
theorem insertStatesAux_id (idx uid did : Nat) :
    ∀ (ds : List DeviceRow) (st : List (Nat × Nat)),
      (∀ d ∈ ds, d.userid = uid → d.deviceid ≠ did → (idx, d.id) ∈ st) →
      insertStatesAux idx uid did ds st = st := by
  intro ds
  induction ds with
  | nil => intro st _; rfl
  | cons d rest ih =>
    intro st hmem
    unfold insertStatesAux
    split
    · rename_i hcond
      exact absurd (hmem d (List.mem_cons_self d rest) hcond.1 hcond.2.1) hcond.2.2
    · exact ih _ (fun d2 hd2 => hmem d2 (List.mem_cons_of_mem d hd2))

end SaveLemmas

/-- An element of a duplicate-free list is counted exactly once. -/
theorem count_one_of_nodup_mem {α : Type} [BEq α] [LawfulBEq α] {l : List α} {a : α}
    (hn : l.Nodup) (ha : a ∈ l) : l.count a = 1 := by
  induction l with
  | nil => cases ha
  | cons x t ih =>
    rw [List.count_cons]
    rcases List.mem_cons.1 ha with rfl | hat
    · have h0 : t.count a = 0 := List.count_eq_zero.2 (List.nodup_cons.1 hn).1
      simp [h0]
    · have h1 : t.count a = 1 := ih (List.nodup_cons.1 hn).2 hat
      have hax : ¬ x = a := by
        intro h
        subst h
        exact (List.nodup_cons.1 hn).1 hat
      simp [h1, hax]

/-- The data-row update of `save` (which touches only the `data`
payload) does not change which row `findDataIndex` finds. -/
theorem findDataIndex_update (db : DB) (uid : Nat) (t k j : String) (idx : Nat)
    (hf : db.findDataIndex uid t k = some idx) :
    DB.findDataIndex
      { db with dataRows := db.dataRows.map (fun r => if r.index == idx then { r with data := j } else r) }
      uid t k = some idx := by
  unfold DB.findDataIndex at hf ⊢
  rw [List.find?_map]
  have hpf : ((fun r : DataRow => r.userid == uid && r.type == t && r.key == k) ∘
      (fun r => if r.index == idx then { r with data := j } else r)) =
      fun r : DataRow => r.userid == uid && r.type == t && r.key == k := by
    funext r
    by_cases hr : (r.index == idx) = true
    · simp only [Function.comp, hr, if_true]
    · simp only [Function.comp, hr, Bool.false_eq_true, if_false]
  rw [hpf]
  rcases hr0 : db.dataRows.find? (fun r => r.userid == uid && r.type == t && r.key == k) with _ | r0
  · rw [hr0] at hf
    exact absurd hf (by simp)
  · rw [hr0] at hf
    rw [hr0]
    simp only [Option.map_some'] at hf ⊢
    have hidx : (if (r0.index == idx) = true then { r0 with data := j } else r0).index = r0.index := by
      by_cases hri : (r0.index == idx) = true <;> simp [hri]
    rw [hidx]
    exact hf

/-- The data-row insert of `save` makes `findDataIndex` find the
fresh serial index. -/
theorem findDataIndex_insert (db : DB) (uid : Nat) (t k j : String)
    (hf : db.findDataIndex uid t k = none) :
    DB.findDataIndex
      { db with
          dataRows := db.dataRows ++ [{ index := db.nextDataIndex, userid := uid, type := t, key := k, data := j }],
          nextDataIndex := db.nextDataIndex + 1 }
      uid t k = some db.nextDataIndex := by
  unfold DB.findDataIndex at hf ⊢
  rw [List.find?_append]
  have h1 : db.dataRows.find? (fun r => r.userid == uid && r.type == t && r.key == k) = none := by
    rcases hr0 : db.dataRows.find? (fun r => r.userid == uid && r.type == t && r.key == k) with _ | r0
    · exact hr0
    · rw [hr0] at hf
      exact absurd hf (by simp)
  rw [h1]
  simp

/-- Characterization of a successful `save`: there is a data row
index `idx` (found among the written data rows) and an intermediate
database `db1` — the pre-state with only the data row written — such
that the final state is `db1` with the `states` insert-select
applied over the unchanged device table and pre-state `states`. -/
theorem save_success_char (o : QueryOracle) (db : DB) (uid did : Nat) (t k j : String)
    (hok : (save o db uid did t k j).2 = true) :
    ∃ (idx : Nat) (db1 : DB),
      db1.devices = db.devices
    ∧ db1.states = db.states
    ∧ db1.findDataIndex uid t k = some idx
    ∧ (save o db uid did t k j).1 =
        { db1 with states := insertStatesAux idx uid did db1.devices db1.states } := by
  unfold save at hok ⊢
  by_cases htb : o.txBegin = false
  · rw [if_pos htb] at hok
    exact absurd hok (by simp)
  rw [if_neg htb] at hok ⊢
  by_cases hq1 : o.q1 = false
  · rw [if_pos hq1] at hok
    exact absurd hok (by simp)
  rw [if_neg hq1] at hok ⊢
  rcases hf : db.findDataIndex uid t k with _ | idx
  · simp only [hf] at hok ⊢
    by_cases hq2 : o.q2 = false
    · rw [if_pos hq2] at hok
      exact absurd hok (by simp)
    rw [if_neg hq2] at hok ⊢
    unfold saveStates at hok ⊢
    by_cases hq3 : o.q3 = false
    · rw [if_pos hq3] at hok
      exact absurd hok (by simp)
    rw [if_neg hq3] at hok ⊢
    by_cases hcm : o.commit = true
    · rw [if_pos hcm]
      refine ⟨db.nextDataIndex,
        { db with
            dataRows := db.dataRows ++ [{ index := db.nextDataIndex, userid := uid, type := t, key := k, data := j }],
            nextDataIndex := db.nextDataIndex + 1 },
        rfl, rfl, findDataIndex_insert db uid t k j hf, rfl⟩
    · rw [if_neg hcm] at hok
      exact absurd hok (by simp)
  · simp only [hf] at hok ⊢
    by_cases hq2 : o.q2 = false
    · rw [if_pos hq2] at hok
      exact absurd hok (by simp)
    rw [if_neg hq2] at hok ⊢
    unfold saveStates at hok ⊢
    by_cases hq3 : o.q3 = false
    · rw [if_pos hq3] at hok
      exact absurd hok (by simp)
    rw [if_neg hq3] at hok ⊢
    by_cases hcm : o.commit = true
    · rw [if_pos hcm]
      refine ⟨idx,
        { db with dataRows := db.dataRows.map (fun r => if r.index == idx then { r with data := j } else r) },
        rfl, rfl, findDataIndex_update db uid t k j idx hf, rfl⟩
    · rw [if_neg hcm] at hok
      exact absurd hok (by simp)

/-- Replaying `save` on a database that already holds the data row
and every peer `states` row never changes the `states` table,
whether the replay succeeds or rolls back. -/
theorem save_replay_states (o2 : QueryOracle) (db2 : DB) (uid did : Nat) (t k j : String) (idx : Nat)
    (hfind : db2.findDataIndex uid t k = some idx)
    (hins : ∀ d ∈ db2.devices, d.userid = uid → d.deviceid ≠ did → (idx, d.id) ∈ db2.states) :
    (save o2 db2 uid did t k j).1.states = db2.states := by
  unfold save
  by_cases htb : o2.txBegin = false
  · rw [if_pos htb]
  · rw [if_neg htb]
    by_cases hq1 : o2.q1 = false
    · rw [if_pos hq1]
    · rw [if_neg hq1]
      simp only [hfind]
      by_cases hq2 : o2.q2 = false
      · rw [if_pos hq2]
      · rw [if_neg hq2]
        unfold saveStates
        by_cases hq3 : o2.q3 = false
        · rw [if_pos hq3]
        · rw [if_neg hq3]
          by_cases hcm : o2.commit = true
          · rw [if_pos hcm]
            show insertStatesAux idx uid did db2.devices db2.states = db2.states
            exact insertStatesAux_id idx uid did db2.devices db2.states hins
          · rw [if_neg hcm]

/-- A concrete database with one user `1` owning two registered
devices: uuid 10 (row id 1) and uuid 11 (row id 2). -/
def dbTwoDevices : DB :=
  { users := [1], devices := [⟨1, 10, 1⟩, ⟨2, 11, 1⟩], dataRows := [],
    states := [], nextDeviceId := 3, nextDataIndex := 1 }

/-- Claim C1 counterexample: device 10 saves `("t","k")`, creating
data row 1 and the pending row `(1, 2)` for device 11.  Device 11
(device-row id 2) then successfully saves the same `("t","k")`; its
own pending row `(1, 2)` is left in place, so after this successful
save a `states` row referencing the saved data row exists for the
writer itself — the claim's "and none for the writer itself" fails
on this reachable state. -/
theorem C1_counterexample :
    (save QueryOracle.ok (save QueryOracle.ok dbTwoDevices 1 10 "t" "k" "o").1
        1 11 "t" "k" "o2").2 = true
  ∧ (save QueryOracle.ok (save QueryOracle.ok dbTwoDevices 1 10 "t" "k" "o").1
        1 11 "t" "k" "o2").1.findDataIndex 1 "t" "k" = some 1
  ∧ (⟨2, 11, 1⟩ : DeviceRow) ∈
      (save QueryOracle.ok (save QueryOracle.ok dbTwoDevices 1 10 "t" "k" "o").1
        1 11 "t" "k" "o2").1.devices
  ∧ (save QueryOracle.ok (save QueryOracle.ok dbTwoDevices 1 10 "t" "k" "o").1
        1 11 "t" "k" "o2").1.states.count (1, 2) = 1 := by
  decide

/-- Claim C1 (amended): after a successful
`save(userId, deviceId, type, key, object)` on a database whose
`states` and device-id columns satisfy their primary-key constraints
there is a data row index `idx` for `(userId, type, key)` such that
exactly one `states` row `(idx, d.id)` exists for every device `d`
of `userId` other than the writer; the save inserts no `states` row
for the writer — any writer row has exactly its prior multiplicity
(so none exists if none existed before) — and replaying the same
save leaves the `states` table unchanged. -/
theorem C1_save_states (o : QueryOracle) (db : DB) (uid did : Nat) (t k j : String)
    (hnS : db.states.Nodup)
    (hnD : (db.devices.map DeviceRow.id).Nodup)
    (hok : (save o db uid did t k j).2 = true) :
    ∃ idx : Nat,
      (save o db uid did t k j).1.findDataIndex uid t k = some idx
    ∧ (∀ d ∈ db.devices, d.userid = uid → d.deviceid ≠ did →
        (save o db uid did t k j).1.states.count (idx, d.id) = 1)
    ∧ (∀ d ∈ db.devices, d.deviceid = did →
        (save o db uid did t k j).1.states.count (idx, d.id) = db.states.count (idx, d.id))
    ∧ (∀ o2 : QueryOracle,
        (save o2 (save o db uid did t k j).1 uid did t k j).1.states =
          (save o db uid did t k j).1.states) := by
  obtain ⟨idx, db1, hdev, hsts, hfindx, hres⟩ := save_success_char o db uid did t k j hok
  have hresStates : (save o db uid did t k j).1.states =
      insertStatesAux idx uid did db.devices db.states := by
    rw [hres, hdev, hsts]
  have hresDevices : (save o db uid did t k j).1.devices = db.devices := by
    rw [hres, hdev]
  have hresFind : (save o db uid did t k j).1.findDataIndex uid t k = some idx := by
    rw [hres]
    exact hfindx
  refine ⟨idx, hresFind, ?_, ?_, ?_⟩
  · intro d hd h1 h2
    rw [hresStates]
    have hmem : (idx, d.id) ∈ insertStatesAux idx uid did db.devices db.states :=
      (insertStatesAux_mem idx uid did db.devices db.states _).2
        (Or.inr ⟨d, hd, h1, h2, rfl⟩)
    have hnd : (insertStatesAux idx uid did db.devices db.states).Nodup :=
      insertStatesAux_nodup idx uid did db.devices db.states hnS
    exact count_one_of_nodup_mem hnd hmem
  · intro d hd hdid
    rw [hresStates]
    apply insertStatesAux_count_eq
    intro d2 hd2 h1 h2 heq
    have hid : d2.id = d.id := congrArg Prod.snd heq
    have hdd : d2 = d := List.inj_on_of_nodup_map hnD hd2 hd hid
    rw [hdd] at h2
    exact h2 hdid
  · intro o2
    apply save_replay_states o2 _ uid did t k j idx hresFind
    intro d hd h1 h2
    rw [hresDevices] at hd
    rw [hresStates]
    exact (insertStatesAux_mem idx uid did db.devices db.states _).2
      (Or.inr ⟨d, hd, h1, h2, rfl⟩)

/-- Witness for the amended C1 at concrete inputs: device 10 saves
into `dbTwoDevices`; the saved row gets index 1, device 11 gets
exactly one pending row, device 10 (the writer) keeps its prior
count 0, and any replay leaves `states` unchanged. -/
theorem C1_save_states_witness :
    ∃ idx : Nat,
      (save QueryOracle.ok dbTwoDevices 1 10 "t" "k" "o").1.findDataIndex 1 "t" "k" = some idx
    ∧ (∀ d ∈ dbTwoDevices.devices, d.userid = 1 → d.deviceid ≠ 10 →
        (save QueryOracle.ok dbTwoDevices 1 10 "t" "k" "o").1.states.count (idx, d.id) = 1)
    ∧ (∀ d ∈ dbTwoDevices.devices, d.deviceid = 10 →
        (save QueryOracle.ok dbTwoDevices 1 10 "t" "k" "o").1.states.count (idx, d.id) =
          dbTwoDevices.states.count (idx, d.id))
    ∧ (∀ o2 : QueryOracle,
        (save o2 (save QueryOracle.ok dbTwoDevices 1 10 "t" "k" "o").1 1 10 "t" "k" "o").1.states =
          (save QueryOracle.ok dbTwoDevices 1 10 "t" "k" "o").1.states) :=
  C1_save_states QueryOracle.ok dbTwoDevices 1 10 "t" "k" "o"
    (by decide) (by decide) (by decide)
